import Mathlib

/-!
Shallow embedding of the cephfs-exporter sources.

The repository contains several variants of the same exporter:
* a recursive walker (`Collector.observePath` in `main.go`) that emits
  `cephfs_rbytes` / `cephfs_rentries` const metrics labelled by `path`;
* a stack-based walker (`StackEntry` / `DynamicMetrics.UpdateMetrics`)
  that pops `PathEntry` work items from a bounded LIFO frontier, samples
  a fixed attribute list and pushes child directories of large entries;
* a flat updater (`src/unnamed/part_000`) that samples a fixed attribute
  list for each configured entry, with no expansion;
* a discover-all updater that lists all xattrs of each configured entry.

Machine floats only ever carry decimal-integer attribute values here
(recursive byte/entry/file counts far below 2^53), so numeric values are
modelled as integers; `strconv.ParseFloat` is modelled by a decimal
parser that fails exactly on non-numeric strings, which is the only
distinction the code observes.

Side effects are modelled as an explicit, ordered `Event` trace:
attribute reads, emitted metric samples, directory listings, rejected
frontier pushes and logged diagnostics.
-/

/-- A directory tree: its extended attributes (name, raw string value),
whether `OpenDir` succeeds on it, and its directory listing as
(name, dtype, subtree) triples; dtype 4 marks a directory, and the `.` /
`..` entries appear in the listing like any others.  A missing attribute
models the `GetXattr` error return. -/
inductive FsTree : Type where
  | node (attrs : List (String × String)) (openOk : Bool)
      (children : List (String × Nat × FsTree))

/-- Attributes of the root node of a tree. -/
def FsTree.attrs : FsTree → List (String × String)
  | .node a _ _ => a

/-- Whether `OpenDir` succeeds on the root node of a tree. -/
def FsTree.openOk : FsTree → Bool
  | .node _ o _ => o

/-- Directory listing of the root node of a tree. -/
def FsTree.children : FsTree → List (String × Nat × FsTree)
  | .node _ _ c => c

/-- `MountInfo.GetXattr`: look up an attribute; `none` models the error
return (attribute absent / path unreadable). -/
def getXattr (t : FsTree) (attr : String) : Option String :=
  (t.attrs.find? (fun p => p.1 == attr)).map (fun p => p.2)

/-- `strconv.ParseFloat` on the decimal-integer strings the exporter
meets: a non-empty all-digit string parses to its value, anything else
fails. -/
def parseNum (s : String) : Option Int :=
  if s.length ≠ 0 ∧ s.toList.all (fun c => c.isDigit) then
    some (s.toList.foldl (fun n c => n * 10 + (Int.ofNat (c.toNat - 48))) 0)
  else none

/-- `filepath.Join` for the shapes the walkers build ("/" ++ name, or
parent ++ "/" ++ name). -/
def joinPath (p n : String) : String :=
  if p = "/" then p ++ n else p ++ "/" ++ n

/-- The recursion threshold, 100 GB (`directorySizeToRecurse`, also
spelled `directorySizeToRecursse` in the stack-based variant; both are
`100_000_000_000`). -/
def directorySizeToRecurse : Int := 100000000000

/-- One observable step of a walk. -/
inductive Event : Type where
  /-- a `GetXattr` call for (path, attribute) -/
  | readAttr (path attr : String)
  /-- a const metric emitted by the recursive walker (label: path) -/
  | sample (metric path : String) (value : Int)
  /-- a gauge sample with org/user/path labels -/
  | sampleL (metric org user path : String) (value : Int)
  /-- an `OpenDir` call made to list children for expansion -/
  | openDir (path : String)
  /-- a frontier `Push` rejected because the stack is over capacity -/
  | pushFail (path : String)
  /-- a logged diagnostic -/
  | diag (msg : String)
deriving DecidableEq, Repr

/-- `PathEntry`: one configured root, also the frontier work item of the
stack-based walker. -/
structure PathEntry where
  organisation : String
  user : String
  path : String
deriving DecidableEq, Repr

/-- `maxStackSize`: frontier capacity bound of the stack-based walker. -/
def maxStackSize : Nat := 10000

/-- `StackEntry.Push`: reject (return `none`, modelling the error) when
the current length exceeds `maxStackSize`, otherwise append on top.  The
check is `Len() > maxStackSize`, performed before appending. -/
def stackPush {α : Type} (s : List α) (d : α) : Option (List α) :=
  if s.length > maxStackSize then none else some (s ++ [d])

/-- `StackEntry.Pop`: take the most recently pushed item; `none` models
the empty-stack error. -/
def stackPop {α : Type} (s : List α) : Option (α × List α) :=
  match s.getLast? with
  | none => none
  | some x => some (x, s.dropLast)

/-- States of a `StackEntry` reachable from the empty stack through
successful `Push` and `Pop` operations. -/
inductive Reachable : List PathEntry → Prop where
  | empty : Reachable []
  | push {s s' : List PathEntry} {d : PathEntry} :
      Reachable s → stackPush s d = some s' → Reachable s'
  | pop {s s' : List PathEntry} {x : PathEntry} :
      Reachable s → stackPop s = some (x, s') → Reachable s'

/-- A fixed work item used to exhibit concrete stack states. -/
def pe0 : PathEntry := ⟨"org", "user", "/data"⟩

mutual
/-- Number of directory nodes in a tree (used as fuel/measure for the
walkers, whose recursion visits each node at most once). -/
def treeSize : FsTree → Nat
  | .node _ _ cs => 1 + childrenSize cs
/-- Total size of the subtrees in a directory listing. -/
def childrenSize : List (String × Nat × FsTree) → Nat
  | [] => 0
  | c :: rest => treeSize c.2.2 + childrenSize rest
end

/-- `getNumXattr`: read an attribute and parse it as a number, the Go
helper shared by the recursive walker; the two error returns are the
read failure and the "Invalid number" parse failure. -/
def getNumXattr (t : FsTree) (attr : String) : Except String Int :=
  match getXattr t attr with
  | none => Except.error "no such attribute"
  | some raw =>
    match parseNum raw with
    | none => Except.error "Invalid number"
    | some n => Except.ok n

/-- The `ReadDir` loop of `observePath`: skip `.` and `..`, recurse
(via `visit`) into entries of dtype 4, abort the loop as soon as a
recursive call returns an error, propagating it.  Events emitted before
the error are kept (the metric channel has already received them). -/
def childLoop (visit : FsTree → String → List Event × Option String) :
    List (String × Nat × FsTree) → String → List Event × Option String
  | [], _ => ([], none)
  | c :: rest, path =>
    if c.1 = "." ∨ c.1 = ".." then childLoop visit rest path
    else if c.2.1 = 4 then
      let r := visit c.2.2 (joinPath path c.1)
      match r.2 with
      | some e => (r.1, some e)
      | none =>
        let r' := childLoop visit rest path
        (r.1 ++ r'.1, r'.2)
    else childLoop visit rest path

/-- `Collector.observePath`, fuel-indexed so that concrete runs reduce;
`observePath` below supplies sufficient fuel.  Returns the ordered event
trace and the error result (`none` = nil error).  The Go declaration
also lists a `level int` parameter, but it is unused in the body and no
call site passes it, so it is omitted here. -/
def observePathF : Nat → FsTree → String → Bool → List Event × Option String
  | 0, _, _, _ => ([], some "out of fuel")
  | fuel+1, t, path, optional =>
    let evs0 : List Event := [Event.readAttr path "ceph.dir.rbytes"]
    match getNumXattr t "ceph.dir.rbytes" with
    | Except.error e => (evs0, some ("Getting rbytes: " ++ e))
    | Except.ok rbytes =>
      if optional = true ∧ rbytes < directorySizeToRecurse then (evs0, none)
      else
        let evs1 := evs0 ++ [Event.readAttr path "ceph.dir.rentries"]
        match getNumXattr t "ceph.dir.rentries" with
        | Except.error e => (evs1, some ("Getting rentries: " ++ e))
        | Except.ok rentries =>
          let evs2 := evs1 ++ [Event.sample "cephfs_rbytes" path rbytes,
                               Event.sample "cephfs_rentries" path rentries]
          if directorySizeToRecurse ≤ rbytes then
            if t.openOk then
              let r := childLoop (fun t' p' => observePathF fuel t' p' true)
                t.children path
              (evs2 ++ [Event.openDir path] ++ r.1, r.2)
            else (evs2 ++ [Event.openDir path], some "Opening directory: error")
          else (evs2, none)

/-- `observePath` with fuel adequate for the tree: the recursion of the
source is bounded by the tree structure, and each recursive call moves
to a strict subtree, so `treeSize t` levels always suffice. -/
def observePath (t : FsTree) (path : String) (optional : Bool) :
    List Event × Option String :=
  observePathF (treeSize t) t path optional

/-- `Collector.Collect`: one scrape walks the filesystem from `/` with
`optional = false`; the returned error is logged, not propagated. -/
def collect (t : FsTree) : List Event × Option String :=
  observePath t "/" false

/-- A registered gauge: the name and the help text it was created
with (`prometheus.GaugeOpts`); all the gauges here carry the label set
`{org, user, path}`. -/
structure GaugeDef where
  name : String
  help : String
deriving DecidableEq, Repr

/-- The mutable state of `DynamicMetrics`: registered gauges in
registration order (the Go map plus the prometheus registry, which are
always updated together). -/
abbrev Registry := List GaugeDef

/-- `DynamicMetrics.AddGauge`: return the existing gauge when the name
is present; otherwise create it, `MustRegister` it and store it.  The
boolean records whether a registration was performed. -/
def addGauge (reg : Registry) (name help : String) :
    Registry × GaugeDef × Bool :=
  match reg.find? (fun g => g.name == name) with
  | some g => (reg, g, false)
  | none => (reg ++ [⟨name, help⟩], ⟨name, help⟩, true)

/-- Derivation of a metric name from an attribute name:
`fmt.Sprintf("cephfs_xattr_%s", strings.ReplaceAll(attr, ".", "_"))`;
`ReplaceAll` is specialised to the single-character pattern used. -/
def metricName (attr : String) : String :=
  "cephfs_xattr_" ++ String.mk (attr.toList.map (fun c => if c = '.' then '_' else c))

/-- The fixed attribute list of the stack-based walker and of the flat
updater. -/
def cephAttrs : List String :=
  ["ceph.dir.rbytes", "ceph.dir.rentries", "ceph.dir.rfiles"]

/-- A frontier work item of the stack-based walker: the `PathEntry`
fields plus the directory subtree the path denotes (the resolution of
the path against the filesystem, carried explicitly so that the walker
is a function of the tree). -/
structure Item where
  organisation : String
  user : String
  path : String
  tree : FsTree

/-- The `ReadDir` push loop of the stack-based `UpdateMetrics`: each
child of dtype 4 (other than `.` and `..`) is pushed as a new work item
inheriting the parent's org/user; a push rejected by the capacity check
is logged (`pushFail` event) and the loop simply continues. -/
def pushChildren (org user ppath : String) :
    List Item → List (String × Nat × FsTree) → List Item × List Event
  | st, [] => (st, [])
  | st, c :: rest =>
    if c.1 = "." ∨ c.1 = ".." then pushChildren org user ppath st rest
    else if c.2.1 = 4 then
      match stackPush st ⟨org, user, joinPath ppath c.1, c.2.2⟩ with
      | some st' => pushChildren org user ppath st' rest
      | none =>
        let r := pushChildren org user ppath st rest
        (r.1, Event.pushFail (joinPath ppath c.1) :: r.2)
    else pushChildren org user ppath st rest

/-- Processing of one (work item, attribute) pair by the stack-based
`UpdateMetrics`: read, parse, register/update the gauge, and — only for
`ceph.dir.rbytes` with a value strictly above the threshold — list the
directory and push its children.  A failed read or parse logs and moves
on.  A failed `OpenDir` prints a diagnostic but the source then calls
`ReadDir` on the nil handle, which crashes the process: the final
boolean records that crash. -/
def processAttr (reg : Registry) (st : List Item) (e : Item) (attr : String) :
    Registry × List Item × List Event × Bool :=
  let evs0 : List Event := [Event.readAttr e.path attr]
  match getXattr e.tree attr with
  | none => (reg, st, evs0 ++ [Event.diag "GetXattr error"], false)
  | some raw =>
    match parseNum raw with
    | none => (reg, st, evs0 ++ [Event.diag "unable to convert to float"], false)
    | some f =>
      let nm := metricName attr
      let r := addGauge reg nm "A dynamically generated metric"
      let evs1 := evs0 ++ [Event.sampleL nm e.organisation e.user e.path f]
      if attr = "ceph.dir.rbytes" ∧ directorySizeToRecurse < f then
        if e.tree.openOk then
          let p := pushChildren e.organisation e.user e.path st e.tree.children
          (r.1, p.1, evs1 ++ [Event.openDir e.path] ++ p.2, false)
        else
          (r.1, st, evs1 ++ [Event.openDir e.path] ++
            [Event.diag "Unable to open directory"], true)
      else (r.1, st, evs1, false)

/-- The attribute loop over one popped work item; a crash aborts it. -/
def processAttrs : List String → Registry → List Item → Item →
    Registry × List Item × List Event × Bool
  | [], reg, st, _ => (reg, st, [], false)
  | a :: rest, reg, st, e =>
    match processAttr reg st e a with
    | (reg', st', evs, crashed) =>
      if crashed then (reg', st', evs, true)
      else
        match processAttrs rest reg' st' e with
        | (reg'', st'', evs', crashed') => (reg'', st'', evs ++ evs', crashed')

/-- The pop loop of the stack-based `UpdateMetrics`, fuel-indexed:
while the frontier is non-empty, pop the top item, process the fixed
attribute list against it (possibly pushing children), and continue;
a crash ends the walk keeping the events already produced. -/
def walkF : Nat → Registry → List Item → Registry × List Event
  | 0, reg, _ => (reg, [])
  | fuel+1, reg, st =>
    match st.getLast? with
    | none => (reg, [])
    | some e =>
      match processAttrs cephAttrs reg st.dropLast e with
      | (reg', st', evs, crashed) =>
        if crashed then (reg', evs)
        else
          match walkF fuel reg' st' with
          | (reg'', evs') => (reg'', evs ++ evs')

/-- Total tree size of a frontier, the walker's termination measure:
each iteration pops an item (removing its whole subtree from the
measure) and pushes at most that item's child subtrees. -/
def stackMeasure (st : List Item) : Nat :=
  (st.map (fun i => treeSize i.tree)).sum

/-- The stack-based `UpdateMetrics` on a loaded frontier: `stackMeasure`
iterations always drain the frontier (each iteration strictly decreases
the measure), so this is the full walk. -/
def walkRun (reg : Registry) (st : List Item) : Registry × List Event :=
  walkF (stackMeasure st) reg st

/-- The per-entry attribute loop of `part_000`'s flat `UpdateMetrics`:
a failed read logs and continues with the next attribute, a failed parse
logs and continues, a parsed value is recorded as a gauge sample.  The
filesystem appears as a path-indexed attribute lookup, since this
variant never lists directories. -/
def flatAttrs (getx : String → String → Option String) :
    List String → Registry → PathEntry → Registry × List Event
  | [], reg, _ => (reg, [])
  | a :: rest, reg, e =>
    let evs0 : List Event := [Event.readAttr e.path a]
    match getx e.path a with
    | none =>
      let r := flatAttrs getx rest reg e
      (r.1, evs0 ++ [Event.diag "Error for path and attribute"] ++ r.2)
    | some raw =>
      match parseNum raw with
      | none =>
        let r := flatAttrs getx rest reg e
        (r.1, evs0 ++ [Event.diag "unable to convert to float"] ++ r.2)
      | some f =>
        let nm := metricName a
        let r0 := addGauge reg nm "A dynamically generated metric"
        let r := flatAttrs getx rest r0.1 e
        (r.1, evs0 ++ [Event.sampleL nm e.organisation e.user e.path f] ++ r.2)

/-- `part_000`'s flat `UpdateMetrics`: one pass over the configured
entries, sampling the fixed attribute list for each. -/
def flatUpdate (getx : String → String → Option String) :
    List PathEntry → Registry → Registry × List Event
  | [], reg => (reg, [])
  | e :: rest, reg =>
    match flatAttrs getx cephAttrs reg e with
    | (reg', evs) =>
      match flatUpdate getx rest reg' with
      | (reg'', evs') => (reg'', evs ++ evs')

/-- The per-entry attribute loop of the discover-all `UpdateMetrics`
variant: a failed read silently continues; a failed parse logs — but,
unlike the other variants, does not skip: the gauge is still set with
Go's zero value for the float (`ParseFloat` returns 0 alongside the
error). -/
def discoverAttrs (getx : String → String → Option String) :
    List String → Registry → PathEntry → Registry × List Event
  | [], reg, _ => (reg, [])
  | a :: rest, reg, e =>
    let evs0 : List Event := [Event.readAttr e.path a]
    match getx e.path a with
    | none =>
      let r := discoverAttrs getx rest reg e
      (r.1, evs0 ++ r.2)
    | some raw =>
      let f := (parseNum raw).getD 0
      let diagEvs : List Event :=
        match parseNum raw with
        | none => [Event.diag "unable to convert to float"]
        | some _ => []
      let nm := metricName a
      let r0 := addGauge reg nm "A dynamically generated metric"
      let r := discoverAttrs getx rest r0.1 e
      (r.1, evs0 ++ diagEvs ++
        [Event.sampleL nm e.organisation e.user e.path f] ++ r.2)

/-- The discover-all `UpdateMetrics`: per entry, `ListXattr` discovers
the attribute names (`none` models the listing error, which logs and
skips the entry), and each discovered attribute is sampled. -/
def discoverUpdate (listx : String → Option (List String))
    (getx : String → String → Option String) :
    List PathEntry → Registry → Registry × List Event
  | [], reg => (reg, [])
  | e :: rest, reg =>
    match listx e.path with
    | none =>
      match discoverUpdate listx getx rest reg with
      | (reg', evs') => (reg', Event.diag "unable to get list of xattr" :: evs')
    | some attrs =>
      match discoverAttrs getx attrs reg e with
      | (reg', evs) =>
        match discoverUpdate listx getx rest reg' with
        | (reg'', evs') => (reg'', evs ++ evs')

/-- A sequence of `AddGauge` calls (name, help), applied in order. -/
def applyCalls : List (String × String) → Registry → Registry
  | [], reg => reg
  | c :: rest, reg => applyCalls rest (addGauge reg c.1 c.2).1

/-- Every node of the tree can be opened for listing: rules out the
process-crashing nil-handle dereference of the stack-based walker. -/
inductive AllOpen : FsTree → Prop where
  | node (attrs : List (String × String))
      (children : List (String × Nat × FsTree)) :
      (∀ c ∈ children, AllOpen c.2.2) → AllOpen (.node attrs true children)

/-! Concrete filesystems and work items used by the counterexamples and
witnesses. -/

/-- A discovered child whose size (10 bytes) is far below the
threshold. -/
def smallChildTree : FsTree :=
  .node [("ceph.dir.rbytes", "10"), ("ceph.dir.rentries", "2"),
    ("ceph.dir.rfiles", "1")] true []

/-- A configured root just above the threshold with one small child. -/
def bigRootTreeC1 : FsTree :=
  .node [("ceph.dir.rbytes", "100000000001"), ("ceph.dir.rentries", "3"),
    ("ceph.dir.rfiles", "2")] true [("small", 4, smallChildTree)]

/-- The work item for `bigRootTreeC1`. -/
def rootItemC1 : Item := ⟨"acme", "alice", "/data", bigRootTreeC1⟩

/-- A directory strictly above the threshold, with a child to expand. -/
def bigTreeC2 : FsTree :=
  .node [("ceph.dir.rbytes", "100000000001")] true [("c", 4, .node [] true [])]

/-- A directory with size exactly equal to the threshold. -/
def eqTreeC2 : FsTree :=
  .node [("ceph.dir.rbytes", "100000000000")] true [("c", 4, .node [] true [])]

/-- Work item for `bigTreeC2`. -/
def bigItemC2 : Item := ⟨"o", "u", "/b", bigTreeC2⟩

/-- Work item for `eqTreeC2`. -/
def eqItemC2 : Item := ⟨"o", "u", "/e", eqTreeC2⟩

/-- A large child whose rentries attribute is missing, so its visit
fails after the root-level size check. -/
def childATree : FsTree := .node [("ceph.dir.rbytes", "100000000001")] true []

/-- A healthy large sibling listed after the failing one. -/
def childBTree : FsTree :=
  .node [("ceph.dir.rbytes", "100000000001"), ("ceph.dir.rentries", "7")] true []

/-- Root whose expansion meets a failing child (`A`) before a healthy
sibling (`B`). -/
def fsC3 : FsTree :=
  .node [("ceph.dir.rbytes", "200000000000"), ("ceph.dir.rentries", "9")] true
    [("A", 4, childATree), ("B", 4, childBTree)]

/-- Filler work item used to pre-load the frontier close to capacity. -/
def fillerTree : FsTree := .node [("ceph.dir.rbytes", "10")] true []

/-- Work item for `fillerTree`. -/
def fillerItem : Item := ⟨"o", "u", "/f", fillerTree⟩

/-- First child of the big directory of the C5 scenario. -/
def c1TreeC5 : FsTree := .node [("ceph.dir.rbytes", "11")] true []

/-- Second child of the big directory of the C5 scenario; its push is
the one the full frontier rejects. -/
def c2TreeC5 : FsTree := .node [("ceph.dir.rbytes", "12")] true []

/-- A directory above the threshold with two children, processed while
the frontier holds `maxStackSize` filler items: the first child still
fits, the second push is rejected. -/
def bigTreeC5 : FsTree :=
  .node [("ceph.dir.rbytes", "100000000001"), ("ceph.dir.rentries", "5"),
    ("ceph.dir.rfiles", "6")] true
    [("c1", 4, c1TreeC5), ("c2", 4, c2TreeC5)]

/-- The work item for `bigTreeC5`. -/
def bigItemC5 : Item := ⟨"acme", "alice", "/data", bigTreeC5⟩

/-- The work item the walker pushes for child `c1`. -/
def c1ItemC5 : Item := ⟨"acme", "alice", "/data/c1", c1TreeC5⟩

/-- A frontier loaded with 10000 fillers below the big directory (a
10001-entry configuration file produces exactly this stack). -/
def stC5 : List Item := List.replicate maxStackSize fillerItem ++ [bigItemC5]

/-- Event trace of processing `bigItemC5` against the almost-full
frontier: the rejected push of `/data/c2` happens mid-item, between the
rbytes sample and the rentries sample. -/
def evsBigC5 : List Event :=
  [Event.readAttr "/data" "ceph.dir.rbytes",
   Event.sampleL "cephfs_xattr_ceph_dir_rbytes" "acme" "alice" "/data" 100000000001,
   Event.openDir "/data",
   Event.pushFail "/data/c2",
   Event.readAttr "/data" "ceph.dir.rentries",
   Event.sampleL "cephfs_xattr_ceph_dir_rentries" "acme" "alice" "/data" 5,
   Event.readAttr "/data" "ceph.dir.rfiles",
   Event.sampleL "cephfs_xattr_ceph_dir_rfiles" "acme" "alice" "/data" 6]

/-- Event trace of processing `c1ItemC5` right after `bigItemC5`: the
successfully pushed child is popped and sampled even though the sibling
push had just been rejected. -/
def evsC1C5 : List Event :=
  [Event.readAttr "/data/c1" "ceph.dir.rbytes",
   Event.sampleL "cephfs_xattr_ceph_dir_rbytes" "acme" "alice" "/data/c1" 11,
   Event.readAttr "/data/c1" "ceph.dir.rentries",
   Event.diag "GetXattr error",
   Event.readAttr "/data/c1" "ceph.dir.rfiles",
   Event.diag "GetXattr error"]

/-- Attribute lookup for the C7 scenario: `/data/alice` carries a
`ceph.dir.rbytes` attribute whose raw value is the empty string, which
fails numeric parsing. -/
def getxC7 : String → String → Option String := fun p a =>
  if p = "/data/alice" ∧ a = "ceph.dir.rbytes" then some "" else none

/-- Attribute listing for the C7 scenario. -/
def listxC7 : String → Option (List String) := fun p =>
  if p = "/data/alice" then some ["ceph.dir.rbytes"] else none

/-- The configured entry of the C7 scenario. -/
def peC7 : PathEntry := ⟨"acme", "alice", "/data/alice"⟩

/-- A small readable root (10 bytes, far below the threshold), used to
witness that roots are sampled regardless of size. -/
def rootTreeW : FsTree :=
  .node [("ceph.dir.rbytes", "10"), ("ceph.dir.rentries", "3")] true []

/-- A leaf work item with open listing, for witnesses of the walker
statements. -/
def itemW5 : Item := ⟨"o", "u", "/w5", .node [] true []⟩

/-- A below-threshold work item used to witness the stack walker's
handling of small directories. -/
def smallItemW : Item := ⟨"o", "u", "/s", smallChildTree⟩

/-- The registry after processing `bigItemC5` from an empty registry:
one gauge per fixed attribute. -/
def regBC5 : Registry :=
  [⟨"cephfs_xattr_ceph_dir_rbytes", "A dynamically generated metric"⟩,
   ⟨"cephfs_xattr_ceph_dir_rentries", "A dynamically generated metric"⟩,
   ⟨"cephfs_xattr_ceph_dir_rfiles", "A dynamically generated metric"⟩]

theorem reachable_replicate (n : Nat) (h : n ≤ maxStackSize + 1) :
    Reachable (List.replicate n pe0) := by
  induction n with
  | zero => exact Reachable.empty
  | succ k ih =>
    have hk : k ≤ maxStackSize + 1 := Nat.le_of_succ_le h
    have hlt : ¬ (List.replicate k pe0).length > maxStackSize := by
      simp only [List.length_replicate]
      omega
    have hpush : stackPush (List.replicate k pe0) pe0
        = some (List.replicate (k + 1) pe0) := by
      rw [stackPush, if_neg hlt, List.replicate_succ' k pe0]
    exact Reachable.push (ih hk) hpush

/-- C4 counterexample: the claim "every state reachable from the empty
frontier has length at most maxStackSize" is false.  `Push` checks
`Len() > maxStackSize` before appending, so pushing onto a stack of
length exactly `maxStackSize` succeeds and a reachable state of length
`maxStackSize + 1 = 10001` exists. -/
theorem C4_counterexample :
    Reachable (List.replicate (maxStackSize + 1) pe0) ∧
      maxStackSize < (List.replicate (maxStackSize + 1) pe0).length := by
  refine ⟨reachable_replicate _ le_rfl, ?_⟩
  rw [List.length_replicate]
  omega

/-- C4 amended: every frontier state reachable from the empty stack has
length at most `maxStackSize + 1`, and `Push` returns an error (instead
of growing the stack) exactly once the length already exceeds
`maxStackSize`. -/
theorem C4_frontier_bound :
    (∀ s : List PathEntry, Reachable s → s.length ≤ maxStackSize + 1) ∧
      (∀ (s : List PathEntry) (d : PathEntry),
        s.length > maxStackSize → stackPush s d = none) := by
  constructor
  · intro s hs
    induction hs with
    | empty => simp
    | push hr hp ih =>
      rename_i s s' d
      by_cases hlen : s.length > maxStackSize
      · rw [stackPush, if_pos hlen] at hp
        exact absurd hp (by simp)
      · rw [stackPush, if_neg hlen] at hp
        have : s' = s ++ [d] := by injection hp with h; exact h.symm
        subst this
        simp only [List.length_append, List.length_singleton]
        omega
    | pop hr hp ih =>
      rename_i s s' x
      rw [stackPop] at hp
      cases hlast : s.getLast? with
      | none => rw [hlast] at hp; exact absurd hp (by simp)
      | some y =>
        rw [hlast] at hp
        have : s' = s.dropLast := by injection hp with h; cases h; rfl
        subst this
        have := List.length_dropLast s
        omega
  · intro s d h
    rw [stackPush, if_pos h]

/-- C4 witness: the amended bound applied at the empty stack, and the
push rejection applied at a concrete over-capacity stack. -/
theorem C4_frontier_bound_witness :
    ([] : List PathEntry).length ≤ maxStackSize + 1 ∧
      stackPush (List.replicate (maxStackSize + 1) pe0) pe0 = none :=
  ⟨C4_frontier_bound.1 [] Reachable.empty,
    C4_frontier_bound.2 (List.replicate (maxStackSize + 1) pe0) pe0
      (by rw [List.length_replicate]; omega)⟩

/-- C7 evaluation at the failing input: in the discover-all variant an
unparsable raw value (the empty string) still produces a gauge sample,
set to Go's zero value 0, alongside the diagnostic — the claim says no
sample may be produced for that (path, attribute) pair. -/
theorem C7_parse_failure_still_sampled :
    discoverUpdate listxC7 getxC7 [peC7] [] =
      ([⟨"cephfs_xattr_ceph_dir_rbytes", "A dynamically generated metric"⟩],
       [Event.readAttr "/data/alice" "ceph.dir.rbytes",
        Event.diag "unable to convert to float",
        Event.sampleL "cephfs_xattr_ceph_dir_rbytes" "acme" "alice"
          "/data/alice" 0]) := by
  decide

/-- C1 counterexample: in the stack-based walker a discovered child
whose size aggregate (10) is below the threshold is still sampled — the
walk of a one-root frontier emits a gauge sample for the child. -/
theorem C1_counterexample :
    Event.sampleL "cephfs_xattr_ceph_dir_rbytes" "acme" "alice" "/data/small" 10
      ∈ (walkRun [] [rootItemC1]).2 := by
  decide

/-- C3 counterexample: in the recursive walker a failed attribute read
on child `/A` aborts the whole walk — the error propagates to the top
call and the healthy sibling `/B` is never read nor sampled. -/
theorem C3_counterexample :
    (collect fsC3).2.isSome = true ∧
      Event.readAttr "/B" "ceph.dir.rbytes" ∉ (collect fsC3).1 ∧
      Event.sample "cephfs_rbytes" "/B" 100000000001 ∉ (collect fsC3).1 := by
  decide

theorem treeSize_pos (t : FsTree) : 0 < treeSize t := by
  cases t with
  | node a o cs => rw [treeSize]; omega

theorem getNumXattr_ok {t : FsTree} {a raw : String} {v : Int}
    (h1 : getXattr t a = some raw) (h2 : parseNum raw = some v) :
    getNumXattr t a = Except.ok v := by
  rw [getNumXattr, h1]
  simp only [h2]

/-- C8: a configured root (visited with `optional = false`) is sampled
whatever its size aggregate is: when both attribute reads parse, the
const metrics for the root appear in the scrape's trace, with no lower
bound asked of `v`. -/
theorem C8_root_always_sampled (t : FsTree) (rb re : String) (v v2 : Int)
    (h1 : getXattr t "ceph.dir.rbytes" = some rb) (h2 : parseNum rb = some v)
    (h3 : getXattr t "ceph.dir.rentries" = some re) (h4 : parseNum re = some v2) :
    Event.sample "cephfs_rbytes" "/" v ∈ (collect t).1 ∧
      Event.sample "cephfs_rentries" "/" v2 ∈ (collect t).1 := by
  obtain ⟨k, hk⟩ := Nat.exists_eq_succ_of_ne_zero (treeSize_pos t).ne'
  rw [collect, observePath, hk]
  simp only [observePathF, getNumXattr_ok h1 h2, getNumXattr_ok h3 h4]
  split
  · rename_i hfalse
    exact absurd hfalse.1 (by simp)
  · split
    · split <;> simp
    · simp

/-- C8 witness: a root of size 10 — far below the threshold — is still
sampled. -/
theorem C8_root_always_sampled_witness :
    Event.sample "cephfs_rbytes" "/" 10 ∈ (collect rootTreeW).1 ∧
      Event.sample "cephfs_rentries" "/" 3 ∈ (collect rootTreeW).1 :=
  C8_root_always_sampled rootTreeW "10" "3" 10 3 (by decide) (by decide)
    (by decide) (by decide)

theorem addGauge_names_nodup {reg : Registry} (n h : String)
    (hnd : (reg.map GaugeDef.name).Nodup) :
    (((addGauge reg n h).1).map GaugeDef.name).Nodup := by
  rw [addGauge]
  cases hf : reg.find? (fun g => g.name == n) with
  | some g => exact hnd
  | none =>
    have habs : ∀ g ∈ reg, g.name ≠ n := by
      intro g hg
      have := List.find?_eq_none.mp hf g hg
      simpa using this
    simp only [List.map_append, List.map_cons, List.map_nil]
    rw [List.nodup_append]
    refine ⟨hnd, List.nodup_singleton _, ?_⟩
    intro a ha hb
    simp only [List.mem_singleton] at hb
    obtain ⟨g, hg, rfl⟩ := List.mem_map.mp ha
    exact habs g hg hb

theorem applyCalls_names_nodup (calls : List (String × String))
    (reg : Registry) (hnd : (reg.map GaugeDef.name).Nodup) :
    (((applyCalls calls reg)).map GaugeDef.name).Nodup := by
  induction calls generalizing reg with
  | nil => exact hnd
  | cons c rest ih =>
    rw [applyCalls]
    exact ih _ (addGauge_names_nodup c.1 c.2 hnd)

/-- C6: registration is idempotent — when the metric name is already
registered, `AddGauge` returns the stored gauge without re-registering
and leaves the registry unchanged; and along any sequence of `AddGauge`
calls from the empty registry at most one gauge definition ever exists
per name. -/
theorem C6_addGauge_idempotent :
    (∀ (reg : Registry) (n h : String) (g : GaugeDef),
        reg.find? (fun g' => g'.name == n) = some g →
        addGauge reg n h = (reg, g, false)) ∧
      (∀ calls : List (String × String),
        ((applyCalls calls []).map GaugeDef.name).Nodup) := by
  constructor
  · intro reg n h g hf
    rw [addGauge, hf]
  · intro calls
    exact applyCalls_names_nodup calls [] (by simp)

/-- C6 witness: a second registration of the name `a` returns the
existing gauge unchanged, and two same-name calls from an empty registry
leave no duplicate definitions. -/
theorem C6_addGauge_idempotent_witness :
    addGauge [⟨"a", "h1"⟩] "a" "h2" = ([⟨"a", "h1"⟩], ⟨"a", "h1"⟩, false) ∧
      ((applyCalls [("a", "x"), ("a", "y")] []).map GaugeDef.name).Nodup :=
  ⟨C6_addGauge_idempotent.1 [⟨"a", "h1"⟩] "a" "h2" ⟨"a", "h1"⟩ (by decide),
    C6_addGauge_idempotent.2 [("a", "x"), ("a", "y")]⟩

/-- C10: when the name already exists, the help text of the later call
is ignored and the registry state for the name is exactly what the first
call created: a second `AddGauge` with any help text returns the gauge
of the first call, registers nothing and leaves the registry unchanged. -/
theorem C10_addGauge_help_ignored (reg : Registry) (n h1 h2 : String) :
    addGauge ((addGauge reg n h1).1) n h2 =
      ((addGauge reg n h1).1, (addGauge reg n h1).2.1, false) := by
  rw [addGauge]
  cases hf : reg.find? (fun g => g.name == n) with
  | some g =>
    have : (addGauge reg n h1).1 = reg ∧ (addGauge reg n h1).2.1 = g := by
      rw [addGauge, hf]; exact ⟨rfl, rfl⟩
    rw [this.1, this.2, hf]
  | none =>
    have h1eq : (addGauge reg n h1).1 = reg ++ [⟨n, h1⟩] ∧
        (addGauge reg n h1).2.1 = ⟨n, h1⟩ := by
      rw [addGauge, hf]; exact ⟨rfl, rfl⟩
    rw [h1eq.1, h1eq.2, List.find?_append, hf]
    simp

theorem processAttr_reg_indep (reg reg' : Registry) (st : List Item)
    (e : Item) (a : String) :
    (processAttr reg st e a).2 = (processAttr reg' st e a).2 := by
  rw [processAttr, processAttr]
  cases hx : getXattr e.tree a with
  | none => rfl
  | some raw =>
    dsimp only
    cases hp : parseNum raw with
    | none => rfl
    | some f =>
      dsimp only
      by_cases hc : a = "ceph.dir.rbytes" ∧ directorySizeToRecurse < f
      · rw [if_pos hc, if_pos hc]
        cases ho : e.tree.openOk with
        | false =>
          rw [if_neg (by simp [ho]), if_neg (by simp [ho])]
        | true =>
          rw [if_pos (by simp [ho]), if_pos (by simp [ho])]
      · rw [if_neg hc, if_neg hc]

theorem processAttrs_reg_indep (attrs : List String) (reg reg' : Registry)
    (st : List Item) (e : Item) :
    (processAttrs attrs reg st e).2 = (processAttrs attrs reg' st e).2 := by
  induction attrs generalizing reg reg' st with
  | nil => rfl
  | cons a rest ih =>
    rw [processAttrs, processAttrs]
    have h := processAttr_reg_indep reg reg' st e a
    rcases hpa : processAttr reg st e a with ⟨r1, s1, v1, c1⟩
    rcases hpb : processAttr reg' st e a with ⟨r2, s2, v2, c2⟩
    rw [hpa, hpb] at h
    obtain ⟨hs, hv, hcr⟩ : s1 = s2 ∧ v1 = v2 ∧ c1 = c2 := by simpa using h
    subst hs; subst hv; subst hcr
    dsimp only
    cases c1 with
    | true => rfl
    | false =>
      have h2 := ih r1 r2 s1
      have ha : (processAttrs rest r1 s1 e).2.1
          = (processAttrs rest r2 s1 e).2.1 := by rw [h2]
      have hb : (processAttrs rest r1 s1 e).2.2.1
          = (processAttrs rest r2 s1 e).2.2.1 := by rw [h2]
      have hcb : (processAttrs rest r1 s1 e).2.2.2
          = (processAttrs rest r2 s1 e).2.2.2 := by rw [h2]
      rw [ha, hb, hcb]
      rfl

theorem walkF_reg_indep (fuel : Nat) (reg reg' : Registry) (st : List Item) :
    (walkF fuel reg st).2 = (walkF fuel reg' st).2 := by
  induction fuel generalizing reg reg' st with
  | zero => rfl
  | succ f ih =>
    rw [walkF, walkF]
    cases hl : st.getLast? with
    | none => rfl
    | some e =>
      dsimp only
      have h := processAttrs_reg_indep cephAttrs reg reg' st.dropLast e
      rcases hpa : processAttrs cephAttrs reg st.dropLast e with ⟨r1, s1, v1, c1⟩
      rcases hpb : processAttrs cephAttrs reg' st.dropLast e with ⟨r2, s2, v2, c2⟩
      rw [hpa, hpb] at h
      obtain ⟨hs, hv, hcr⟩ : s1 = s2 ∧ v1 = v2 ∧ c1 = c2 := by simpa using h
      subst hs; subst hv; subst hcr
      dsimp only
      cases c1 with
      | true => rfl
      | false =>
        rw [ih r1 r2 s1]
        rfl

theorem flatAttrs_reg_indep (getx : String → String → Option String)
    (attrs : List String) (reg reg' : Registry) (e : PathEntry) :
    (flatAttrs getx attrs reg e).2 = (flatAttrs getx attrs reg' e).2 := by
  induction attrs generalizing reg reg' with
  | nil => rfl
  | cons a rest ih =>
    rw [flatAttrs, flatAttrs]
    cases hx : getx e.path a with
    | none => dsimp only; rw [ih reg reg']
    | some raw =>
      dsimp only
      cases hp : parseNum raw with
      | none => dsimp only; rw [ih reg reg']
      | some f =>
        dsimp only
        rw [ih (addGauge reg (metricName a) "A dynamically generated metric").1
          (addGauge reg' (metricName a) "A dynamically generated metric").1]

theorem flatUpdate_reg_indep (getx : String → String → Option String)
    (entries : List PathEntry) (reg reg' : Registry) :
    (flatUpdate getx entries reg).2 = (flatUpdate getx entries reg').2 := by
  induction entries generalizing reg reg' with
  | nil => rfl
  | cons e rest ih =>
    rw [flatUpdate, flatUpdate]
    have h := flatAttrs_reg_indep getx cephAttrs reg reg' e
    rcases ha1 : flatAttrs getx cephAttrs reg e with ⟨r1, v1⟩
    rcases ha2 : flatAttrs getx cephAttrs reg' e with ⟨r2, v2⟩
    rw [ha1, ha2] at h
    simp only at h
    subst h
    dsimp only
    have h2 := ih r1 r2
    rcases hu1 : flatUpdate getx rest r1 with ⟨r1', v1'⟩
    rcases hu2 : flatUpdate getx rest r2 with ⟨r2', v2'⟩
    rw [hu1, hu2] at h2
    simp only at h2
    rw [h2]

/-- C9: the walks are deterministic and idempotent — the event trace
(hence the sample set) depends only on the filesystem and the frontier,
not on the registry state left behind by the previous cycle, so running
the same walk twice on an unchanged filesystem yields the identical
trace: stated for the stack-based walker and for the flat updater. -/
theorem C9_walk_idempotent :
    (∀ (reg : Registry) (st : List Item),
        (walkRun ((walkRun reg st).1) st).2 = (walkRun reg st).2) ∧
      (∀ (getx : String → String → Option String)
         (entries : List PathEntry) (reg : Registry),
        (flatUpdate getx entries ((flatUpdate getx entries reg).1)).2 =
          (flatUpdate getx entries reg).2) :=
  ⟨fun reg st => walkF_reg_indep (stackMeasure st) ((walkRun reg st).1) reg st,
    fun getx entries reg =>
      flatUpdate_reg_indep getx entries ((flatUpdate getx entries reg).1) reg⟩

theorem processAttr_rbytes_noexpand (reg : Registry) (st : List Item)
    (e : Item) {raw : String} {v : Int}
    (h1 : getXattr e.tree "ceph.dir.rbytes" = some raw)
    (h2 : parseNum raw = some v) (h3 : ¬ directorySizeToRecurse < v) :
    processAttr reg st e "ceph.dir.rbytes" =
      ((addGauge reg (metricName "ceph.dir.rbytes")
          "A dynamically generated metric").1, st,
        [Event.readAttr e.path "ceph.dir.rbytes",
         Event.sampleL (metricName "ceph.dir.rbytes") e.organisation e.user
           e.path v], false) := by
  rw [processAttr, h1]
  simp only [h2]
  rw [if_neg (by intro hcc; exact h3 hcc.2)]
  rfl

theorem processAttr_nonrbytes (reg : Registry) (st : List Item) (e : Item)
    (a : String) (h : a ≠ "ceph.dir.rbytes") :
    (processAttr reg st e a).2.1 = st ∧
      (processAttr reg st e a).2.2.2 = false ∧
      ∀ p, Event.openDir p ∉ (processAttr reg st e a).2.2.1 := by
  rw [processAttr]
  cases getXattr e.tree a with
  | none => refine ⟨rfl, rfl, ?_⟩; intro p; simp
  | some raw =>
    dsimp only
    cases parseNum raw with
    | none => refine ⟨rfl, rfl, ?_⟩; intro p; simp
    | some f =>
      dsimp only
      rw [if_neg (by intro hcc; exact h hcc.1)]
      refine ⟨?_, ?_, ?_⟩
      · rfl
      · rfl
      · intro p
        simp

theorem processAttr_rbytes_openDir_mem (reg : Registry) (st : List Item)
    (e : Item) {raw : String} {v : Int}
    (h1 : getXattr e.tree "ceph.dir.rbytes" = some raw)
    (h2 : parseNum raw = some v) (h3 : directorySizeToRecurse < v) :
    Event.openDir e.path ∈ (processAttr reg st e "ceph.dir.rbytes").2.2.1 := by
  rw [processAttr, h1]
  simp only [h2]
  rw [if_pos (by exact ⟨by trivial, h3⟩)]
  cases e.tree.openOk <;> simp

theorem processAttrs_nil (reg : Registry) (st : List Item) (e : Item) :
    processAttrs [] reg st e = (reg, st, [], false) := rfl

theorem processAttrs_cons (a : String) (rest : List String) (reg : Registry)
    (st : List Item) (e : Item) :
    processAttrs (a :: rest) reg st e =
      (if (processAttr reg st e a).2.2.2 then
        ((processAttr reg st e a).1, (processAttr reg st e a).2.1,
          (processAttr reg st e a).2.2.1, true)
      else
        ((processAttrs rest (processAttr reg st e a).1
            (processAttr reg st e a).2.1 e).1,
          (processAttrs rest (processAttr reg st e a).1
            (processAttr reg st e a).2.1 e).2.1,
          (processAttr reg st e a).2.2.1 ++
            (processAttrs rest (processAttr reg st e a).1
              (processAttr reg st e a).2.1 e).2.2.1,
          (processAttrs rest (processAttr reg st e a).1
            (processAttr reg st e a).2.1 e).2.2.2)) := by
  rw [processAttrs]

/-- C1 amended: the cheap-rejection pruning of small discovered children
exists only in the recursive walker — there, an optional visit whose
size aggregate is below the threshold performs exactly one attribute
read and nothing else (no samples, no listing, no children).  The
stack-based walker applies no such pruning: a popped below-threshold
work item leaves the frontier unchanged (nothing pushed) but is still
sampled. -/
theorem C1_prune_policy :
    (∀ (t : FsTree) (p raw : String) (v : Int),
        getXattr t "ceph.dir.rbytes" = some raw → parseNum raw = some v →
        v < directorySizeToRecurse →
        observePath t p true = ([Event.readAttr p "ceph.dir.rbytes"], none)) ∧
      (∀ (reg : Registry) (st : List Item) (e : Item) (raw : String) (v : Int),
        getXattr e.tree "ceph.dir.rbytes" = some raw → parseNum raw = some v →
        ¬ directorySizeToRecurse < v →
        (processAttrs cephAttrs reg st e).2.1 = st ∧
          Event.sampleL (metricName "ceph.dir.rbytes") e.organisation e.user
            e.path v ∈ (processAttrs cephAttrs reg st e).2.2.1) := by
  constructor
  · intro t p raw v h1 h2 h3
    obtain ⟨k, hk⟩ := Nat.exists_eq_succ_of_ne_zero (treeSize_pos t).ne'
    rw [observePath, hk]
    simp only [observePathF, getNumXattr_ok h1 h2]
    rw [if_pos (by exact ⟨by trivial, h3⟩)]
  · intro reg st e raw v h1 h2 h3
    have hP1 := processAttr_rbytes_noexpand reg st e h1 h2 h3
    simp only [cephAttrs]
    rw [processAttrs_cons, hP1]
    dsimp only
    obtain ⟨hs2, hc2, _⟩ := processAttr_nonrbytes
      (addGauge reg (metricName "ceph.dir.rbytes")
        "A dynamically generated metric").1 st e
      "ceph.dir.rentries" (by decide)
    rw [processAttrs_cons, hs2, hc2]
    obtain ⟨hs3, hc3, _⟩ := processAttr_nonrbytes
      (processAttr (addGauge reg (metricName "ceph.dir.rbytes")
        "A dynamically generated metric").1 st e "ceph.dir.rentries").1 st e
      "ceph.dir.rfiles" (by decide)
    rw [processAttrs_cons, hs3, hc3]
    rw [processAttrs_nil]
    exact ⟨rfl, by simp⟩

/-- C1 witness: the recursive walker prunes a 10-byte optional visit
down to a single read, while the stack walker pushes nothing for a
10-byte item yet still samples it. -/
theorem C1_prune_policy_witness :
    observePath smallChildTree "/data/small" true
        = ([Event.readAttr "/data/small" "ceph.dir.rbytes"], none) ∧
      ((processAttrs cephAttrs [] [] smallItemW).2.1 = ([] : List Item) ∧
        Event.sampleL (metricName "ceph.dir.rbytes") "o" "u" "/s" 10
          ∈ (processAttrs cephAttrs [] [] smallItemW).2.2.1) :=
  ⟨C1_prune_policy.1 smallChildTree "/data/small" "10" 10 (by decide)
      (by decide) (by decide),
    C1_prune_policy.2 [] [] smallItemW "10" 10 (by decide) (by decide)
      (by decide)⟩

/-- C2 amended: expansion is governed by the size aggregate alone —
there is no maximum-depth bound anywhere in the code.  The stack-based
walker lists a directory exactly when its parsed rbytes value is
strictly greater than the threshold; the recursive walker (when the
visit is not pruned) lists exactly when the value is greater than or
equal to the threshold. -/
theorem C2_expansion_iff :
    (∀ (reg : Registry) (st : List Item) (e : Item) (raw : String) (v : Int),
        getXattr e.tree "ceph.dir.rbytes" = some raw → parseNum raw = some v →
        (Event.openDir e.path ∈ (processAttrs cephAttrs reg st e).2.2.1 ↔
          directorySizeToRecurse < v)) ∧
      (∀ (t : FsTree) (p : String) (optional : Bool) (rb re : String)
         (v v2 : Int),
        getXattr t "ceph.dir.rbytes" = some rb → parseNum rb = some v →
        getXattr t "ceph.dir.rentries" = some re → parseNum re = some v2 →
        ¬(optional = true ∧ v < directorySizeToRecurse) →
        (Event.openDir p ∈ (observePath t p optional).1 ↔
          directorySizeToRecurse ≤ v)) := by
  constructor
  · intro reg st e raw v h1 h2
    by_cases hv : directorySizeToRecurse < v
    · refine iff_of_true ?_ hv
      simp only [cephAttrs]
      rw [processAttrs_cons]
      have hmem := processAttr_rbytes_openDir_mem reg st e h1 h2 hv
      split
      · exact hmem
      · exact List.mem_append_left _ hmem
    · refine iff_of_false ?_ hv
      have hP1 := processAttr_rbytes_noexpand reg st e h1 h2 hv
      simp only [cephAttrs]
      rw [processAttrs_cons, hP1]
      obtain ⟨hs2, hc2, ho2⟩ := processAttr_nonrbytes
        (addGauge reg (metricName "ceph.dir.rbytes")
          "A dynamically generated metric").1 st e
        "ceph.dir.rentries" (by decide)
      rw [processAttrs_cons, hs2, hc2]
      obtain ⟨hs3, hc3, ho3⟩ := processAttr_nonrbytes
        (processAttr (addGauge reg (metricName "ceph.dir.rbytes")
          "A dynamically generated metric").1 st e "ceph.dir.rentries").1 st e
        "ceph.dir.rfiles" (by decide)
      rw [processAttrs_cons, hs3, hc3]
      rw [processAttrs_nil]
      intro hmem
      rcases List.mem_append.mp hmem with h | h
      · simp at h
      · rcases List.mem_append.mp h with h' | h'
        · exact ho2 _ h'
        · rcases List.mem_append.mp h' with h'' | h''
          · exact ho3 _ h''
          · simp at h''
  · intro t p optional rb re v v2 h1 h2 h3 h4 hno
    obtain ⟨k, hk⟩ := Nat.exists_eq_succ_of_ne_zero (treeSize_pos t).ne'
    rw [observePath, hk]
    simp only [observePathF, getNumXattr_ok h1 h2, getNumXattr_ok h3 h4]
    rw [if_neg hno]
    by_cases hv : directorySizeToRecurse ≤ v
    · refine iff_of_true ?_ hv
      rw [if_pos hv]
      cases ho : t.openOk
      · rw [if_neg (by simp [ho])]
        simp
      · rw [if_pos (by simp [ho])]
        simp
    · refine iff_of_false ?_ hv
      rw [if_neg hv]
      simp

/-- C2 counterexample: the claim's expansion condition — size-aggregate
at or above the threshold AND depth strictly below a configured maximum
depth — matches no choice of maximum depth.  Configured roots sit at
depth 0, so for a root the condition specialises to `θ ≤ v ∧ 0 < D`:
with `D = 0` the walker still expands a large root, and with `D ≥ 1` it
refuses to expand a root whose size equals the threshold exactly
(the code's test is strict `>`). -/
theorem C2_counterexample :
    ¬ ∃ D : Nat, ∀ (reg : Registry) (st : List Item) (e : Item)
        (raw : String) (v : Int),
        getXattr e.tree "ceph.dir.rbytes" = some raw → parseNum raw = some v →
        (Event.openDir e.path ∈ (processAttrs cephAttrs reg st e).2.2.1 ↔
          (directorySizeToRecurse ≤ v ∧ 0 < D)) := by
  rintro ⟨D, hD⟩
  cases D with
  | zero =>
    have h := (hD [] [] bigItemC2 "100000000001" 100000000001 (by decide)
      (by decide)).mp (by decide)
    exact absurd h.2 (by decide)
  | succ k =>
    have h := (hD [] [] eqItemC2 "100000000000" 100000000000 (by decide)
      (by decide)).mpr ⟨by decide, Nat.succ_pos k⟩
    exact absurd h (by decide)

/-- C2 witness: the stack walker expands a directory one byte above the
threshold, and the recursive walker's root is not expanded at size 10. -/
theorem C2_expansion_iff_witness :
    (Event.openDir "/b" ∈ (processAttrs cephAttrs [] [] bigItemC2).2.2.1 ↔
        directorySizeToRecurse < 100000000001) ∧
      (Event.openDir "/" ∈ (observePath rootTreeW "/" false).1 ↔
        directorySizeToRecurse ≤ 10) :=
  ⟨C2_expansion_iff.1 [] [] bigItemC2 "100000000001" 100000000001 (by decide)
      (by decide),
    C2_expansion_iff.2 rootTreeW "/" false "10" "3" 10 3 (by decide)
      (by decide) (by decide) (by decide) (by simp)⟩

theorem childLoop_cons_skip {visit : FsTree → String → List Event × Option String}
    {c : String × Nat × FsTree} (l : List (String × Nat × FsTree)) (p : String)
    (hdot : c.1 = "." ∨ c.1 = "..") :
    childLoop visit (c :: l) p = childLoop visit l p := by
  rw [childLoop, if_pos hdot]

theorem childLoop_cons_nondir
    {visit : FsTree → String → List Event × Option String}
    {c : String × Nat × FsTree} (l : List (String × Nat × FsTree)) (p : String)
    (hdot : ¬(c.1 = "." ∨ c.1 = "..")) (h4 : ¬ c.2.1 = 4) :
    childLoop visit (c :: l) p = childLoop visit l p := by
  rw [childLoop, if_neg hdot, if_neg h4]

theorem childLoop_cons_ok {visit : FsTree → String → List Event × Option String}
    {c : String × Nat × FsTree} (l : List (String × Nat × FsTree)) (p : String)
    (hdot : ¬(c.1 = "." ∨ c.1 = "..")) (h4 : c.2.1 = 4)
    (hok : (visit c.2.2 (joinPath p c.1)).2 = none) :
    childLoop visit (c :: l) p =
      ((visit c.2.2 (joinPath p c.1)).1 ++ (childLoop visit l p).1,
        (childLoop visit l p).2) := by
  rw [childLoop, if_neg hdot, if_pos h4]
  simp only [hok]

theorem childLoop_cons_err {visit : FsTree → String → List Event × Option String}
    {c : String × Nat × FsTree} (l : List (String × Nat × FsTree)) (p : String)
    {err : String} (hdot : ¬(c.1 = "." ∨ c.1 = "..")) (h4 : c.2.1 = 4)
    (herr : (visit c.2.2 (joinPath p c.1)).2 = some err) :
    childLoop visit (c :: l) p = ((visit c.2.2 (joinPath p c.1)).1, some err) := by
  rw [childLoop, if_neg hdot, if_pos h4]
  simp only [herr]

theorem flatAttrs_reads (getx : String → String → Option String)
    (attrs : List String) (reg : Registry) (e : PathEntry) :
    ∀ a ∈ attrs, Event.readAttr e.path a ∈ (flatAttrs getx attrs reg e).2 := by
  induction attrs generalizing reg with
  | nil => simp
  | cons a0 rest ih =>
    intro a ha
    rw [flatAttrs]
    rcases List.mem_cons.mp ha with rfl | ha'
    · cases hx : getx e.path a with
      | none => simp
      | some raw =>
        cases hp : parseNum raw with
        | none => simp [hp]
        | some f => simp [hp]
    · cases hx : getx e.path a0 with
      | none =>
        exact List.mem_cons_of_mem _ (List.mem_cons_of_mem _ (ih reg a ha'))
      | some raw =>
        cases hp : parseNum raw with
        | none =>
          simp only [hp]
          exact List.mem_cons_of_mem _ (List.mem_cons_of_mem _ (ih reg a ha'))
        | some f =>
          simp only [hp]
          exact List.mem_cons_of_mem _ (List.mem_cons_of_mem _ (ih
            (addGauge reg (metricName a0) "A dynamically generated metric").1
            a ha'))

/-- C3 amended: the two cited walkers disagree with the claim in
opposite directions.  In the recursive walker a child whose visit fails
aborts the whole remaining walk: the `ReadDir` loop returns the error as
soon as one recursive visit fails, so later siblings contribute nothing
(first conjunct, for an arbitrary visit function, provided the siblings
before the failing child succeed).  In `part_000`'s flat updater a
failure only skips that (path, attribute) pair: every configured pair is
still read, whatever the lookup returns elsewhere (second conjunct). -/
theorem C3_failure_scope :
    (∀ (visit : FsTree → String → List Event × Option String)
       (cs₁ : List (String × Nat × FsTree)) (c : String × Nat × FsTree)
       (cs₂ : List (String × Nat × FsTree)) (p err : String),
        (∀ c' ∈ cs₁, (c'.1 = "." ∨ c'.1 = "..") ∨ ¬ c'.2.1 = 4 ∨
          (visit c'.2.2 (joinPath p c'.1)).2 = none) →
        ¬(c.1 = "." ∨ c.1 = "..") → c.2.1 = 4 →
        (visit c.2.2 (joinPath p c.1)).2 = some err →
        childLoop visit (cs₁ ++ c :: cs₂) p =
          ((childLoop visit cs₁ p).1 ++ (visit c.2.2 (joinPath p c.1)).1,
            some err)) ∧
      (∀ (getx : String → String → Option String) (entries : List PathEntry)
         (reg : Registry) (e : PathEntry) (a : String),
        e ∈ entries → a ∈ cephAttrs →
        Event.readAttr e.path a ∈ (flatUpdate getx entries reg).2) := by
  constructor
  · intro visit cs₁ c cs₂ p err h hdot hc4 herr
    induction cs₁ with
    | nil =>
      rw [List.nil_append, childLoop_cons_err _ _ hdot hc4 herr]
      simp [childLoop]
    | cons c' cs₁ ih =>
      have hc' := h c' (List.mem_cons_self c' cs₁)
      have hrest : ∀ c'' ∈ cs₁, (c''.1 = "." ∨ c''.1 = "..") ∨ ¬ c''.2.1 = 4 ∨
          (visit c''.2.2 (joinPath p c''.1)).2 = none :=
        fun c'' hm => h c'' (List.mem_cons_of_mem _ hm)
      by_cases hdot' : c'.1 = "." ∨ c'.1 = ".."
      · rw [List.cons_append, childLoop_cons_skip _ _ hdot',
          childLoop_cons_skip _ _ hdot']
        exact ih hrest
      · by_cases h4' : c'.2.1 = 4
        · have hnone' : (visit c'.2.2 (joinPath p c'.1)).2 = none := by
            rcases hc' with hh | hh | hh
            · exact absurd hh hdot'
            · exact absurd h4' hh
            · exact hh
          rw [List.cons_append, childLoop_cons_ok _ _ hdot' h4' hnone',
            childLoop_cons_ok _ _ hdot' h4' hnone', ih hrest]
          simp [List.append_assoc]
        · rw [List.cons_append, childLoop_cons_nondir _ _ hdot' h4',
            childLoop_cons_nondir _ _ hdot' h4']
          exact ih hrest
  · intro getx entries reg e a he ha
    induction entries generalizing reg with
    | nil => exact absurd he (by simp)
    | cons e0 rest ih =>
      rw [flatUpdate]
      rcases List.mem_cons.mp he with rfl | he'
      · exact List.mem_append_left _ (flatAttrs_reads getx cephAttrs reg e a ha)
      · exact List.mem_append_right _
          (ih (flatAttrs getx cephAttrs reg e0).1 he')

/-- C3 witness: the abort lemma applied to a two-child listing whose
first directory visit fails, and the flat updater applied to a lookup
that always fails — the read still happens. -/
theorem C3_failure_scope_witness :
    childLoop (fun _ _ => ([Event.diag "x"], some "boom"))
        ([] ++ ("A", 4, FsTree.node [] true []) ::
          [("B", 4, FsTree.node [] true [])]) "/" =
      ((childLoop (fun _ _ => ([Event.diag "x"], some "boom")) [] "/").1 ++
        [Event.diag "x"], some "boom") ∧
      Event.readAttr "/data" "ceph.dir.rbytes" ∈
        (flatUpdate (fun _ _ => none) [pe0] []).2 :=
  ⟨C3_failure_scope.1 (fun _ _ => ([Event.diag "x"], some "boom"))
      [] ("A", 4, FsTree.node [] true []) [("B", 4, FsTree.node [] true [])]
      "/" "boom" (by simp) (by decide) rfl rfl,
    C3_failure_scope.2 (fun _ _ => none) [pe0] [] pe0 "ceph.dir.rbytes"
      (by simp) (by decide)⟩

theorem AllOpen.openOk_eq {t : FsTree} (h : AllOpen t) : t.openOk = true := by
  cases h with
  | node a cs h' => rfl

theorem AllOpen.child {t : FsTree} (h : AllOpen t) {c : String × Nat × FsTree}
    (hc : c ∈ t.children) : AllOpen c.2.2 := by
  cases h with
  | node a cs h' => exact h' c hc

theorem stackMeasure_append (a b : List Item) :
    stackMeasure (a ++ b) = stackMeasure a + stackMeasure b := by
  simp [stackMeasure]

theorem stackMeasure_singleton (i : Item) :
    stackMeasure [i] = treeSize i.tree := by
  simp [stackMeasure]

theorem stackMeasure_cons (i : Item) (l : List Item) :
    stackMeasure (i :: l) = treeSize i.tree + stackMeasure l := by
  simp [stackMeasure]

theorem stackMeasure_pos_of_mem {i : Item} {st : List Item} (h : i ∈ st) :
    0 < stackMeasure st := by
  obtain ⟨l1, l2, rfl⟩ := List.append_of_mem h
  rw [stackMeasure_append, stackMeasure_cons]
  have := treeSize_pos i.tree
  omega

theorem childrenSize_lt_treeSize (t : FsTree) :
    childrenSize t.children < treeSize t := by
  cases t with
  | node a o cs =>
    rw [treeSize]
    simp [FsTree.children]

theorem pushChildren_spec (o u p : String) (cs : List (String × Nat × FsTree)) :
    ∀ st : List Item,
      ∃ ys, (pushChildren o u p st cs).1 = st ++ ys ∧
        (∀ i ∈ ys, ∃ c ∈ cs, i.tree = c.2.2) ∧
        stackMeasure ys ≤ childrenSize cs := by
  induction cs with
  | nil =>
    intro st
    exact ⟨[], by simp [pushChildren], by simp, by simp [stackMeasure, childrenSize]⟩
  | cons c rest ih =>
    intro st
    rw [pushChildren]
    by_cases hdot : c.1 = "." ∨ c.1 = ".."
    · rw [if_pos hdot]
      obtain ⟨ys, h1, h2, h3⟩ := ih st
      refine ⟨ys, h1, ?_, ?_⟩
      · intro i hi
        obtain ⟨c', hc', he⟩ := h2 i hi
        exact ⟨c', List.mem_cons_of_mem _ hc', he⟩
      · rw [childrenSize]
        omega
    · rw [if_neg hdot]
      by_cases h4 : c.2.1 = 4
      · rw [if_pos h4]
        cases hsp : stackPush st (⟨o, u, joinPath p c.1, c.2.2⟩ : Item) with
        | some st' =>
          have hst' : st' = st ++ [(⟨o, u, joinPath p c.1, c.2.2⟩ : Item)] := by
            rw [stackPush] at hsp
            by_cases hl : st.length > maxStackSize
            · rw [if_pos hl] at hsp; exact absurd hsp (by simp)
            · rw [if_neg hl] at hsp
              injection hsp with h
              exact h.symm
          obtain ⟨ys, h1, h2, h3⟩ := ih st'
          refine ⟨(⟨o, u, joinPath p c.1, c.2.2⟩ : Item) :: ys, ?_, ?_, ?_⟩
          · rw [h1, hst']
            simp
          · intro i hi
            rcases List.mem_cons.mp hi with rfl | hi'
            · exact ⟨c, List.mem_cons_self c rest, rfl⟩
            · obtain ⟨c', hc', he⟩ := h2 i hi'
              exact ⟨c', List.mem_cons_of_mem _ hc', he⟩
          · rw [stackMeasure_cons, childrenSize]
            have htr : (⟨o, u, joinPath p c.1, c.2.2⟩ : Item).tree = c.2.2 := rfl
            rw [htr]
            omega
        | none =>
          obtain ⟨ys, h1, h2, h3⟩ := ih st
          refine ⟨ys, h1, ?_, ?_⟩
          · intro i hi
            obtain ⟨c', hc', he⟩ := h2 i hi
            exact ⟨c', List.mem_cons_of_mem _ hc', he⟩
          · rw [childrenSize]
            omega
      · rw [if_neg h4]
        obtain ⟨ys, h1, h2, h3⟩ := ih st
        refine ⟨ys, h1, ?_, ?_⟩
        · intro i hi
          obtain ⟨c', hc', he⟩ := h2 i hi
          exact ⟨c', List.mem_cons_of_mem _ hc', he⟩
        · rw [childrenSize]
          omega

theorem processAttr_stack_spec (reg : Registry) (st : List Item) (e : Item)
    (a : String) :
    ∃ ys, (processAttr reg st e a).2.1 = st ++ ys ∧
      (∀ i ∈ ys, ∃ c ∈ e.tree.children, i.tree = c.2.2) ∧
      stackMeasure ys ≤ childrenSize e.tree.children := by
  rw [processAttr]
  cases hx : getXattr e.tree a with
  | none => exact ⟨[], by simp, by simp, by simp [stackMeasure]⟩
  | some raw =>
    dsimp only
    cases hp : parseNum raw with
    | none => exact ⟨[], by simp, by simp, by simp [stackMeasure]⟩
    | some f =>
      dsimp only
      by_cases hcc : a = "ceph.dir.rbytes" ∧ directorySizeToRecurse < f
      · rw [if_pos hcc]
        cases ho : e.tree.openOk with
        | false =>
          rw [if_neg (by simp [ho])]
          exact ⟨[], by simp, by simp, by simp [stackMeasure]⟩
        | true =>
          rw [if_pos (by simp [ho])]
          exact pushChildren_spec e.organisation e.user e.path
            e.tree.children st
      · rw [if_neg hcc]
        exact ⟨[], by simp, by simp, by simp [stackMeasure]⟩

theorem processAttr_nocrash (reg : Registry) (st : List Item) (e : Item)
    (a : String) (ho : e.tree.openOk = true) :
    (processAttr reg st e a).2.2.2 = false := by
  rw [processAttr]
  cases hx : getXattr e.tree a with
  | none => rfl
  | some raw =>
    dsimp only
    cases hp : parseNum raw with
    | none => rfl
    | some f =>
      dsimp only
      by_cases hcc : a = "ceph.dir.rbytes" ∧ directorySizeToRecurse < f
      · rw [if_pos hcc, if_pos ho]
      · rw [if_neg hcc]

theorem processAttr_head (reg : Registry) (st : List Item) (e : Item)
    (a : String) :
    ∃ tl, (processAttr reg st e a).2.2.1 = Event.readAttr e.path a :: tl := by
  rw [processAttr]
  cases hx : getXattr e.tree a with
  | none => exact ⟨_, rfl⟩
  | some raw =>
    dsimp only
    cases hp : parseNum raw with
    | none => exact ⟨_, rfl⟩
    | some f =>
      dsimp only
      by_cases hcc : a = "ceph.dir.rbytes" ∧ directorySizeToRecurse < f
      · rw [if_pos hcc]
        cases ho : e.tree.openOk with
        | false => rw [if_neg (by simp [ho])]; exact ⟨_, rfl⟩
        | true => rw [if_pos (by simp [ho])]; exact ⟨_, rfl⟩
      · rw [if_neg hcc]
        exact ⟨_, rfl⟩

theorem processAttrs_tail_nonrbytes (attrs : List String)
    (h : ∀ a ∈ attrs, ¬ a = "ceph.dir.rbytes") :
    ∀ (reg : Registry) (st : List Item) (e : Item),
      (processAttrs attrs reg st e).2.1 = st ∧
        (processAttrs attrs reg st e).2.2.2 = false := by
  induction attrs with
  | nil => intro reg st e; exact ⟨rfl, rfl⟩
  | cons a rest ih =>
    intro reg st e
    obtain ⟨hs, hc, -⟩ := processAttr_nonrbytes reg st e a
      (h a (List.mem_cons_self a rest))
    have hrest := fun a' ha' => h a' (List.mem_cons_of_mem _ ha')
    rw [processAttrs_cons, hc, hs]
    simp only [Bool.false_eq_true, if_false]
    exact ih hrest (processAttr reg st e a).1 st e

theorem processAttrs_cephAttrs_stack_spec (reg : Registry) (st : List Item)
    (e : Item) :
    ∃ ys, (processAttrs cephAttrs reg st e).2.1 = st ++ ys ∧
      (∀ i ∈ ys, ∃ c ∈ e.tree.children, i.tree = c.2.2) ∧
      stackMeasure ys ≤ childrenSize e.tree.children := by
  obtain ⟨ys, h1, h2, h3⟩ := processAttr_stack_spec reg st e "ceph.dir.rbytes"
  have htail := processAttrs_tail_nonrbytes
    ["ceph.dir.rentries", "ceph.dir.rfiles"] (by decide)
  simp only [cephAttrs]
  rw [processAttrs_cons]
  split
  · exact ⟨ys, h1, h2, h3⟩
  · refine ⟨ys, ?_, h2, h3⟩
    have := (htail (processAttr reg st e "ceph.dir.rbytes").1
      (processAttr reg st e "ceph.dir.rbytes").2.1 e).1
    rw [this, h1]

theorem processAttrs_cephAttrs_nocrash (reg : Registry) (st : List Item)
    (e : Item) (ho : e.tree.openOk = true) :
    (processAttrs cephAttrs reg st e).2.2.2 = false := by
  have hc1 := processAttr_nocrash reg st e "ceph.dir.rbytes" ho
  have htail := processAttrs_tail_nonrbytes
    ["ceph.dir.rentries", "ceph.dir.rfiles"] (by decide)
  simp only [cephAttrs]
  rw [processAttrs_cons]
  split
  · rename_i hcr
    rw [hc1] at hcr
    exact absurd hcr (by simp)
  · exact (htail (processAttr reg st e "ceph.dir.rbytes").1
      (processAttr reg st e "ceph.dir.rbytes").2.1 e).2

theorem processAttrs_cephAttrs_head (reg : Registry) (st : List Item)
    (e : Item) :
    ∃ tl, (processAttrs cephAttrs reg st e).2.2.1 =
      Event.readAttr e.path "ceph.dir.rbytes" :: tl := by
  obtain ⟨tl1, h1⟩ := processAttr_head reg st e "ceph.dir.rbytes"
  simp only [cephAttrs]
  rw [processAttrs_cons]
  split
  · exact ⟨tl1, h1⟩
  · refine ⟨tl1 ++ (processAttrs ["ceph.dir.rentries", "ceph.dir.rfiles"]
      (processAttr reg st e "ceph.dir.rbytes").1
      (processAttr reg st e "ceph.dir.rbytes").2.1 e).2.2.1, ?_⟩
    rw [h1]
    simp

theorem walk_step_measure (reg : Registry) (xs : List Item) (e : Item) :
    stackMeasure ((processAttrs cephAttrs reg xs e).2.1) <
      stackMeasure (xs ++ [e]) := by
  obtain ⟨ys, h1, h2, h3⟩ := processAttrs_cephAttrs_stack_spec reg xs e
  rw [h1, stackMeasure_append, stackMeasure_append, stackMeasure_singleton]
  have h4 := childrenSize_lt_treeSize e.tree
  omega

/-- C5 amended: a rejected push does not stop the walk — it only drops
that child (with a diagnostic).  Every item already on the frontier is
still processed: its rbytes read occurs in the walk's trace, whatever
push failures happen along the way (crash-free trees assumed, since a
failed OpenDir in this walker dereferences a nil handle).  Samples
already emitted are never retracted: the trace only grows. -/
theorem C5_push_failure_nonfatal :
    ∀ (fuel : Nat) (reg : Registry) (st : List Item) (item : Item),
      stackMeasure st ≤ fuel → item ∈ st → (∀ i ∈ st, AllOpen i.tree) →
      Event.readAttr item.path "ceph.dir.rbytes" ∈ (walkF fuel reg st).2 := by
  intro fuel
  induction fuel with
  | zero =>
    intro reg st item hm hmem _
    have := stackMeasure_pos_of_mem hmem
    omega
  | succ f ih =>
    intro reg st item hm hmem hopen
    rcases List.eq_nil_or_concat st with rfl | ⟨xs, e, hst⟩
    · exact absurd hmem (by simp)
    · subst hst
      rw [List.concat_eq_append] at hm hmem hopen ⊢
      rw [walkF, List.getLast?_concat]
      dsimp only
      rw [List.dropLast_concat]
      have hopen_e : AllOpen e.tree := hopen e (by simp)
      have hnc := processAttrs_cephAttrs_nocrash reg xs e hopen_e.openOk_eq
      split
      · rename_i hcr
        rw [hnc] at hcr
        exact absurd hcr (by simp)
      · rcases List.mem_append.mp hmem with hx | he
        · obtain ⟨ys, h1, h2, h3⟩ := processAttrs_cephAttrs_stack_spec reg xs e
          refine List.mem_append_right _ ?_
          apply ih
          · show stackMeasure (processAttrs cephAttrs reg xs e).2.1 ≤ f
            have := walk_step_measure reg xs e
            omega
          · rw [h1]
            exact List.mem_append_left _ hx
          · intro i hi
            rw [h1] at hi
            rcases List.mem_append.mp hi with hxi | hyi
            · exact hopen i (List.mem_append_left _ hxi)
            · obtain ⟨c, hc, he'⟩ := h2 i hyi
              rw [he']
              exact hopen_e.child hc
        · obtain ⟨tl, htl⟩ := processAttrs_cephAttrs_head reg xs e
          refine List.mem_append_left _ ?_
          rw [htl]
          have : item = e := by simpa using he
          rw [this]
          exact List.mem_cons_self _ _

/-- C5 witness: the non-fatality statement applied to a one-item
frontier (its read appears in the trace). -/
theorem C5_push_failure_nonfatal_witness :
    Event.readAttr "/w5" "ceph.dir.rbytes" ∈ (walkF 1 [] [itemW5]).2 :=
  C5_push_failure_nonfatal 1 [] [itemW5] itemW5 (by decide) (by simp)
    (fun i hi => by
      rcases List.mem_singleton.mp hi with rfl
      exact AllOpen.node [] [] (by intro c hc; exact absurd hc (by simp)))

theorem processAttr_eval_sampled (reg : Registry) (st : List Item) (e : Item)
    (a raw : String) (v : Int)
    (h1 : getXattr e.tree a = some raw) (h2 : parseNum raw = some v)
    (hcc : ¬(a = "ceph.dir.rbytes" ∧ directorySizeToRecurse < v)) :
    processAttr reg st e a =
      ((addGauge reg (metricName a) "A dynamically generated metric").1, st,
        [Event.readAttr e.path a,
         Event.sampleL (metricName a) e.organisation e.user e.path v],
        false) := by
  rw [processAttr, h1]
  simp only [h2]
  rw [if_neg hcc]
  rfl

theorem processAttr_eval_missing (reg : Registry) (st : List Item) (e : Item)
    (a : String) (h : getXattr e.tree a = none) :
    processAttr reg st e a =
      (reg, st, [Event.readAttr e.path a, Event.diag "GetXattr error"],
        false) := by
  rw [processAttr, h]
  rfl

theorem processAttr_eval_expand (reg : Registry) (st : List Item) (e : Item)
    (raw : String) (v : Int)
    (h1 : getXattr e.tree "ceph.dir.rbytes" = some raw)
    (h2 : parseNum raw = some v) (h3 : directorySizeToRecurse < v)
    (ho : e.tree.openOk = true) :
    processAttr reg st e "ceph.dir.rbytes" =
      ((addGauge reg (metricName "ceph.dir.rbytes")
          "A dynamically generated metric").1,
        (pushChildren e.organisation e.user e.path st e.tree.children).1,
        [Event.readAttr e.path "ceph.dir.rbytes",
         Event.sampleL (metricName "ceph.dir.rbytes") e.organisation e.user
           e.path v,
         Event.openDir e.path] ++
          (pushChildren e.organisation e.user e.path st e.tree.children).2,
        false) := by
  rw [processAttr, h1]
  simp only [h2]
  rw [if_pos (by exact ⟨by trivial, h3⟩), if_pos ho]
  rfl

theorem pushChildren_evalC5 :
    pushChildren bigItemC5.organisation bigItemC5.user bigItemC5.path
      (List.replicate maxStackSize fillerItem) bigItemC5.tree.children =
      (List.replicate maxStackSize fillerItem ++ [c1ItemC5],
        [Event.pushFail "/data/c2"]) := by
  show pushChildren "acme" "alice" "/data"
      (List.replicate maxStackSize fillerItem)
      [("c1", 4, c1TreeC5), ("c2", 4, c2TreeC5)] = _
  have hp1 : stackPush (List.replicate maxStackSize fillerItem)
      (⟨"acme", "alice", joinPath "/data" "c1", c1TreeC5⟩ : Item) =
      some (List.replicate maxStackSize fillerItem ++ [c1ItemC5]) := by
    rw [stackPush, if_neg (by simp)]
    rw [show joinPath "/data" "c1" = "/data/c1" from by decide]
    rfl
  have hp2 : stackPush (List.replicate maxStackSize fillerItem ++ [c1ItemC5])
      (⟨"acme", "alice", joinPath "/data" "c2", c2TreeC5⟩ : Item) = none := by
    rw [stackPush, if_pos (by simp)]
  rw [pushChildren, if_neg (by decide), if_pos (by decide)]
  dsimp only
  rw [hp1]
  dsimp only
  rw [pushChildren, if_neg (by decide), if_pos (by decide)]
  dsimp only
  rw [hp2]
  dsimp only
  rw [pushChildren]
  rw [show joinPath "/data" "c2" = "/data/c2" from by decide]

theorem processAttrs_evalBigC5 :
    processAttrs cephAttrs [] (List.replicate maxStackSize fillerItem)
      bigItemC5 =
      (regBC5, List.replicate maxStackSize fillerItem ++ [c1ItemC5], evsBigC5,
        false) := by
  have h1 := processAttr_eval_expand [] (List.replicate maxStackSize fillerItem)
    bigItemC5 "100000000001" 100000000001
    (by decide) (by decide) (by decide) (by decide)
  rw [pushChildren_evalC5] at h1
  have h2 := processAttr_eval_sampled
    (addGauge [] (metricName "ceph.dir.rbytes")
      "A dynamically generated metric").1
    (List.replicate maxStackSize fillerItem ++ [c1ItemC5]) bigItemC5
    "ceph.dir.rentries" "5" 5
    (by decide) (by decide) (by decide)
  have h3 := processAttr_eval_sampled
    (addGauge (addGauge [] (metricName "ceph.dir.rbytes")
        "A dynamically generated metric").1
      (metricName "ceph.dir.rentries") "A dynamically generated metric").1
    (List.replicate maxStackSize fillerItem ++ [c1ItemC5]) bigItemC5
    "ceph.dir.rfiles" "6" 6
    (by decide) (by decide) (by decide)
  simp only [cephAttrs]
  rw [processAttrs_cons, h1]
  dsimp only
  rw [processAttrs_cons, h2]
  dsimp only
  rw [processAttrs_cons, h3]
  dsimp only
  rfl

theorem processAttrs_evalC1C5 :
    processAttrs cephAttrs regBC5 (List.replicate maxStackSize fillerItem)
      c1ItemC5 =
      (regBC5, List.replicate maxStackSize fillerItem, evsC1C5, false) := by
  have h1 := processAttr_eval_sampled regBC5
    (List.replicate maxStackSize fillerItem) c1ItemC5
    "ceph.dir.rbytes" "11" 11
    (by decide) (by decide) (by decide)
  have h2 := processAttr_eval_missing
    (addGauge regBC5 (metricName "ceph.dir.rbytes")
      "A dynamically generated metric").1
    (List.replicate maxStackSize fillerItem) c1ItemC5
    "ceph.dir.rentries" (by decide)
  have h3 := processAttr_eval_missing
    (addGauge regBC5 (metricName "ceph.dir.rbytes")
      "A dynamically generated metric").1
    (List.replicate maxStackSize fillerItem) c1ItemC5
    "ceph.dir.rfiles" (by decide)
  simp only [cephAttrs]
  rw [processAttrs_cons, h1]
  dsimp only
  rw [processAttrs_cons, h2]
  dsimp only
  rw [processAttrs_cons, h3]
  dsimp only
  rfl

theorem walkF1_evalC5 :
    walkF 1 regBC5 (List.replicate maxStackSize fillerItem ++ [c1ItemC5]) =
      (regBC5, evsC1C5) := by
  show walkF (0 + 1) regBC5
      (List.replicate maxStackSize fillerItem ++ [c1ItemC5]) = _
  rw [walkF, List.getLast?_concat]
  dsimp only
  rw [List.dropLast_concat, processAttrs_evalC1C5]
  dsimp only
  rw [walkF]
  dsimp only
  rw [List.append_nil]
  rfl

theorem walkF2_evalC5 :
    (walkF 2 [] stC5).2 = evsBigC5 ++ evsC1C5 := by
  show (walkF (1 + 1) [] stC5).2 = _
  rw [walkF]
  simp only [stC5]
  rw [List.getLast?_concat]
  dsimp only
  rw [List.dropLast_concat, processAttrs_evalBigC5]
  dsimp only
  rw [walkF1_evalC5]
  rfl

theorem walkF_events_mono :
    ∀ (f1 f2 : Nat) (reg : Registry) (st : List Item), f1 ≤ f2 →
      ∃ tail, (walkF f2 reg st).2 = (walkF f1 reg st).2 ++ tail := by
  intro f1
  induction f1 with
  | zero =>
    intro f2 reg st _
    exact ⟨(walkF f2 reg st).2, by rw [walkF]; rfl⟩
  | succ f1 ih =>
    intro f2 reg st h
    cases f2 with
    | zero => omega
    | succ f2' =>
      rw [walkF, walkF]
      cases hl : st.getLast? with
      | none => exact ⟨[], by simp⟩
      | some e =>
        dsimp only
        by_cases hcr :
            (processAttrs cephAttrs reg st.dropLast e).2.2.2 = true
        · rw [if_pos hcr, if_pos hcr]
          exact ⟨[], by simp⟩
        · rw [if_neg hcr, if_neg hcr]
          obtain ⟨tail, ht⟩ := ih f2'
            (processAttrs cephAttrs reg st.dropLast e).1
            (processAttrs cephAttrs reg st.dropLast e).2.1 (by omega)
          exact ⟨tail, by rw [ht, List.append_assoc]⟩

theorem two_le_stackMeasure_stC5 : 2 ≤ stackMeasure stC5 := by
  rw [stC5, stackMeasure_append, stackMeasure_singleton]
  have h3 : treeSize bigItemC5.tree = 3 := by decide
  omega

/-- C5 counterexample: in a walk whose frontier holds 10000 filler items
below the big directory, the push of child `/data/c2` is rejected — yet
the walk does not stop: the sibling `/data/c1`, pushed just before, is
popped and sampled right after, so nodes of the same root are processed
after the capacity failure. -/
theorem C5_counterexample :
    ∃ l1 l2 l3, (walkRun [] stC5).2 =
      l1 ++ Event.pushFail "/data/c2" ::
        (l2 ++ Event.sampleL "cephfs_xattr_ceph_dir_rbytes" "acme" "alice"
          "/data/c1" 11 :: l3) := by
  obtain ⟨tail, ht⟩ := walkF_events_mono 2 (stackMeasure stC5) [] stC5
    two_le_stackMeasure_stC5
  refine ⟨[Event.readAttr "/data" "ceph.dir.rbytes",
      Event.sampleL "cephfs_xattr_ceph_dir_rbytes" "acme" "alice" "/data"
        100000000001,
      Event.openDir "/data"],
    [Event.readAttr "/data" "ceph.dir.rentries",
      Event.sampleL "cephfs_xattr_ceph_dir_rentries" "acme" "alice" "/data" 5,
      Event.readAttr "/data" "ceph.dir.rfiles",
      Event.sampleL "cephfs_xattr_ceph_dir_rfiles" "acme" "alice" "/data" 6,
      Event.readAttr "/data/c1" "ceph.dir.rbytes"],
    [Event.readAttr "/data/c1" "ceph.dir.rentries",
      Event.diag "GetXattr error",
      Event.readAttr "/data/c1" "ceph.dir.rfiles",
      Event.diag "GetXattr error"] ++ tail, ?_⟩
  show (walkF (stackMeasure stC5) [] stC5).2 = _
  rw [ht, walkF2_evalC5]
  simp [evsBigC5, evsC1C5]
